import Mathlib

/-!
Verification of the command-execution core of the `tavor` Python SDK
(`src/tavor/client.py`, `src/tavor/async_client.py`, `src/tavor/models.py`).

Strings are embedded as `List Char`.  Python string operations used by the
code (`str.split("\n\n")`, `str.splitlines(keepends=True)`,
`str.rstrip("\n")`, `str.strip()` truthiness, `int(...)` parsing) are
modelled as executable Lean functions with the same observable behaviour on
the inputs the client feeds them.  Network effects are modelled by scripted
server responses and an explicit request log.
-/

namespace TavorSdk

/-- Characters Python `str.strip()` removes (the ASCII whitespace set; the
client only ever strips SSE message fragments, which are ASCII). -/
def pyIsSpace (c : Char) : Bool :=
  c = ' ' || c = '\t' || c = '\n' || c = '\r' || c = '\x0b' || c = '\x0c'

/-- Python truthiness of `s.strip()` negated: `not s.strip()` holds iff every
character of `s` is whitespace. -/
def pyStripIsEmpty (s : List Char) : Bool :=
  s.all pyIsSpace

/-- Python `buffer.split("\n\n")` with the last element popped off as the new
buffer, exactly as `BoxHandle._run_with_streaming` uses it:
`messages = buffer.split("\n\n"); buffer = messages.pop()`.
Returns `(complete segments, trailing buffer)`.  Matches CPython `str.split`
semantics: non-overlapping occurrences of the separator are removed by a
greedy left-to-right scan. -/
def splitBuf : List Char → List (List Char) × List Char
  | [] => ([], [])
  | [c] => ([], [c])
  | c1 :: c2 :: rest =>
    if c1 = '\n' && c2 = '\n' then
      let r := splitBuf rest
      ([] :: r.1, r.2)
    else
      let r := splitBuf (c2 :: rest)
      match r.1 with
      | [] => ([], c1 :: r.2)
      | s :: ss => ((c1 :: s) :: ss, r.2)

/-- Characters Python `str.splitlines` treats as a line boundary on their own
(`\r\n` is additionally treated as a single boundary; the exotic Unicode
boundaries `\x85`, ` `, ` ` are included for fidelity). -/
def pyIsLineBreak (c : Char) : Bool :=
  c = '\n' || c = '\r' || c = '\x0b' || c = '\x0c' ||
  c = '\x1c' || c = '\x1d' || c = '\x1e' ||
  c = '\x85' || c = ' ' || c = ' '

/-- Python `s.splitlines(keepends=True)`: split after every line boundary,
keeping the boundary characters (`"\r\n"` counts as a single boundary); a
trailing segment without a boundary is kept as a final (unterminated) line;
a lone final character is one line whether or not it is a boundary. -/
def splitlinesKeepends : List Char → List (List Char)
  | [] => []
  | [c] => [[c]]
  | c1 :: c2 :: rest =>
    if c1 = '\r' ∧ c2 = '\n' then
      ['\r', '\n'] :: splitlinesKeepends rest
    else if pyIsLineBreak c1 then
      [c1] :: splitlinesKeepends (c2 :: rest)
    else
      match splitlinesKeepends (c2 :: rest) with
      | [] => [[c1]]
      | l :: ls => (c1 :: l) :: ls

/-- Python `line.rstrip("\n")`: drop every trailing `'\n'`. -/
def rstripNl (s : List Char) : List Char :=
  (s.reverse.dropWhile (fun c => c = '\n')).reverse

/-- A parsed Server-Sent Event: event name and raw data payload
(`models.SSEEvent`). -/
structure SSEEvent where
  event : List Char
  data : List Char
deriving DecidableEq, Repr

/-- Remove one leading space, as SSE field values are "trimmed of one leading
space". -/
def stripOneSpace : List Char → List Char
  | ' ' :: r => r
  | l => l

/-- Newline-join the collected data-line values of one SSE record. -/
def joinNl : List (List Char) → List Char
  | [] => []
  | [l] => l
  | l :: ls => l ++ '\n' :: joinNl ls

/-- Modelled from the spec: the per-record part of `sse_utils.parse_sse_stream`
(`src/tavor/sse_utils.py` is not in the repository snapshot).  Per spec §4.1:
within a record, `event:` lines set the event name (value trimmed of one
leading space), `data:` lines are collected in order and newline-joined,
comment lines (leading `:`) and unrecognized prefixes are ignored, and the
event name defaults to `"message"`. -/
def parseSseRecord (record : List Char) : SSEEvent :=
  let step := fun (acc : Option (List Char) × List (List Char)) (l : List Char) =>
    if ("event:".toList).isPrefixOf l then (some (stripOneSpace (l.drop 6)), acc.2)
    else if ("data:".toList).isPrefixOf l then (acc.1, acc.2 ++ [stripOneSpace (l.drop 5)])
    else acc
  let r := (record.splitOn '\n').foldl step (none, [])
  { event := r.1.getD ("message".toList),
    data := joinNl r.2 }

/-- Modelled from the spec: `sse_utils.parse_sse_stream`
(`src/tavor/sse_utils.py` is not in the repository snapshot).  It yields the
complete blank-line-delimited records of its input as `(event, data)` pairs,
holding back a trailing incomplete record.  The client only ever calls it on
a single complete record followed by `"\n\n"`, for which the blank-record
filter below is inert. -/
def parseSseStream (s : List Char) : List SSEEvent :=
  ((splitBuf s).1.filter (fun r => !pyStripIsEmpty r)).map parseSseRecord

/-- Events the streaming loop extracts from one complete framed message:
`parse_sse_stream(message + "\n\n")` (client.py line 190). -/
def eventsOfMessage (m : List Char) : List SSEEvent :=
  parseSseStream (m ++ ['\n', '\n'])

/-- One pass of the chunk loop of `BoxHandle._run_with_streaming`
(client.py lines 180-190): skip empty chunks, append the chunk to the held
buffer, split off the complete `"\n\n"`-delimited messages, keep the trailing
partial message as the new buffer, and parse each non-blank complete message.
The state is `(events emitted so far, held buffer)`. -/
def sseFrameStep (st : List SSEEvent × List Char) (chunk : List Char) :
    List SSEEvent × List Char :=
  if chunk.isEmpty then st
  else
    let r := splitBuf (st.2 ++ chunk)
    (st.1 ++ (r.1.filter (fun m => !pyStripIsEmpty m)).flatMap eventsOfMessage, r.2)

/-- The whole chunk loop run over a scripted sequence of received fragments,
starting from the empty buffer (client.py line 179). -/
def sseFrameEvents (chunks : List (List Char)) : List SSEEvent × List Char :=
  chunks.foldl sseFrameStep ([], [])

/-- `s` contains the two-character separator `"\n\n"`. -/
def hasSep : List Char → Bool
  | [] => false
  | [_] => false
  | c1 :: c2 :: rest => (c1 = '\n' && c2 = '\n') || hasSep (c2 :: rest)

/-- A well-formed wire record for the client framing: it contains no blank
line, does not end in a bare newline (which would shift the greedy split),
and is not all-whitespace (the loop skips blank messages). -/
def WfRecord (r : List Char) : Prop :=
  hasSep r = false ∧ r.getLast? ≠ some '\n' ∧ pyStripIsEmpty r = false

instance : DecidablePred WfRecord := fun r => by
  unfold WfRecord; infer_instance

/-- `models.CommandStatus`. -/
inductive CommandStatus
  | queued
  | running
  | done
  | failed
  | error
deriving DecidableEq, Repr

/-- Python `CommandStatus(s)`: the enum lookup by value; `none` models the
`ValueError` raised on an unknown value. -/
def commandStatusOfString (s : List Char) : Option CommandStatus :=
  if s = "queued".toList then some .queued
  else if s = "running".toList then some .running
  else if s = "done".toList then some .done
  else if s = "failed".toList then some .failed
  else if s = "error".toList then some .error
  else none

/-- The error taxonomy as the client raises it.  `closedHandleError` is
modelled from the spec (§7 names a `ClosedHandleError`; `src/tavor/exceptions.py`
is not in the repository snapshot): it is included so that claims about it can
be stated, but the client code under `src/` only ever raises the generic
`TavorError`, `CommandTimeoutError` and Python `ValueError`; `boxStartError`
is likewise from the spec taxonomy only. -/
inductive TavorErr
  | tavorError (msg : List Char)
  | commandTimeoutError (msg : List Char)
  | closedHandleError (msg : List Char)
  | boxStartError (msg : List Char)
  | valueError (msg : List Char)
deriving DecidableEq, Repr

/-- The decoded JSON object of an SSE data payload, as the dispatch code reads
it (`data.get("command_id")`, `data.get("stdout")`, ...).  A missing key and a
JSON `null` both read back as `none`, exactly as `dict.get` returns `None`. -/
structure OutJson where
  command_id : Option (List Char) := none
  stdout : Option (List Char) := none
  stderr : Option (List Char) := none
  status : Option (List Char) := none
  exit_code : Option Int := none
  errorMsg : Option (List Char) := none
deriving DecidableEq, Repr

/-- One SSE event as the dispatch loop sees it: the event name and the result
of `json.loads` on its data (`none` = `json.JSONDecodeError`, which the code
catches and skips). -/
structure StreamEvent where
  name : List Char
  json : Option OutJson
deriving DecidableEq, Repr

/-- Which output callbacks the caller registered (`options.on_stdout`,
`options.on_stderr`). -/
structure StreamOpts where
  onStdout : Bool
  onStderr : Bool
deriving DecidableEq, Repr

/-- `models.CommandResult` restricted to the fields the executor fills. -/
structure CommandResult where
  id : List Char
  command : List Char
  status : CommandStatus
  stdout : List Char
  stderr : List Char
  exitCode : Int
deriving DecidableEq, Repr

/-- Mutable loop state of `_run_with_streaming` plus the chronological log of
callback invocations (the argument of each `options.on_stdout(...)` /
`options.on_stderr(...)` call). -/
structure StreamState where
  stdout : List Char
  stderr : List Char
  exitCode : Int
  status : CommandStatus
  commandId : Option (List Char)
  stdoutCalls : List (List Char)
  stderrCalls : List (List Char)
deriving DecidableEq, Repr

/-- Initial state of the streaming loop (client.py lines 148-152). -/
def initStreamState : StreamState :=
  { stdout := [], stderr := [], exitCode := 0, status := .queued,
    commandId := none, stdoutCalls := [], stderrCalls := [] }

/-- The callback arguments one output payload produces (client.py lines
201-205): `for line in s.splitlines(keepends=True): if line:
callback(line.rstrip("\n"))`. -/
def streamCallbackLines (s : List Char) : List (List Char) :=
  ((splitlinesKeepends s).filter (fun l => !l.isEmpty)).map rstripNl

/-- Result built from the current loop state, used both by the `end` event
and by the fall-through when the connection closes (client.py lines 227-235
and 255-263): `id = command_id or ""`. -/
def mkStreamResult (cmd : List Char) (st : StreamState) : CommandResult :=
  { id := match st.commandId with
          | some s => if s ≠ [] then s else []
          | none => [],
    command := cmd, status := st.status, stdout := st.stdout,
    stderr := st.stderr, exitCode := st.exitCode }

/-- Outcome of dispatching one SSE event. -/
inductive StepOut
  | next (st : StreamState)
  | finish (res : CommandResult) (st : StreamState)
  | raiseE (e : TavorErr) (st : StreamState)
deriving DecidableEq, Repr

/-- Dispatch of one parsed SSE event (client.py lines 191-247).  A `none`
JSON means `json.loads` failed; the `except json.JSONDecodeError: pass`
swallows it and the event is skipped. -/
def stepStreamEvent (cmd : List Char) (opts : StreamOpts) (st : StreamState)
    (ev : StreamEvent) : StepOut :=
  match ev.json with
  | none => .next st
  | some d =>
    if ev.name = "start".toList then
      .next { st with commandId := d.command_id }
    else if ev.name = "output".toList then
      let st1 :=
        match d.stdout with
        | some s =>
          if s ≠ [] then
            { st with stdout := st.stdout ++ s,
                      stdoutCalls := st.stdoutCalls ++
                        (if opts.onStdout then streamCallbackLines s else []) }
          else st
        | none => st
      let st2 :=
        match d.stderr with
        | some s =>
          if s ≠ [] then
            { st1 with stderr := st1.stderr ++ s,
                       stderrCalls := st1.stderrCalls ++
                         (if opts.onStderr then streamCallbackLines s else []) }
          else st1
        | none => st1
      .next st2
    else if ev.name = "status".toList then
      match d.status with
      | none => .raiseE (.valueError ("None is not a valid CommandStatus".toList)) st
      | some s =>
        match commandStatusOfString s with
        | none => .raiseE (.valueError (s ++ " is not a valid CommandStatus".toList)) st
        | some cs =>
          let st1 := { st with status := cs }
          match d.exit_code with
          | some ec => .next { st1 with exitCode := ec }
          | none => .next st1
    else if ev.name = "end".toList then
      if d.status = some ("error".toList) then
        .finish (mkStreamResult cmd { st with status := .error }) { st with status := .error }
      else if d.status = some ("timeout".toList) then
        .raiseE (.commandTimeoutError ("Command timed out".toList)) st
      else
        .finish (mkStreamResult cmd st) st
    else if ev.name = "error".toList then
      .raiseE (.tavorError (("Command error: ").toList ++ d.errorMsg.getD ("Unknown error".toList))) st
    else if ev.name = "timeout".toList then
      .raiseE (.commandTimeoutError ("Command timed out".toList)) st
    else
      .next st

/-- The streaming event loop run over a scripted sequence of decoded events;
reaching the end of the list models the connection closing, which returns the
accumulated result (client.py lines 254-263).  The final `StreamState` is
returned alongside so the callback log stays observable. -/
def runStreamEvents (cmd : List Char) (opts : StreamOpts) :
    StreamState → List StreamEvent → Except TavorErr CommandResult × StreamState
  | st, [] => (.ok (mkStreamResult cmd st), st)
  | st, ev :: rest =>
    match stepStreamEvent cmd opts st ev with
    | .next st' => runStreamEvents cmd opts st' rest
    | .finish r st' => (.ok r, st')
    | .raiseE e st' => (.error e, st')

/-- An `output` SSE event carrying only a stdout payload. -/
def outputStdoutEvent (p : List Char) : StreamEvent :=
  ⟨"output".toList, some { stdout := some p }⟩

/-- An event whose dispatch neither returns nor raises: any event with
undecodable JSON, and any decodable event other than `end`, `error`,
`timeout`, or a `status` event whose payload status fails the
`CommandStatus(...)` lookup. -/
def nonTerminating (ev : StreamEvent) : Bool :=
  match ev.json with
  | none => true
  | some d =>
    !decide (ev.name = "end".toList) && !decide (ev.name = "error".toList) &&
      !decide (ev.name = "timeout".toList) &&
      (!decide (ev.name = "status".toList) ||
        (match d.status with
         | some s => (commandStatusOfString s).isSome
         | none => false))

/-- `st'` extends `st`: the output accumulators and callback logs have only
grown, and every byte appended to a callback log came (in order, without
duplication) from the bytes appended to the corresponding accumulator. -/
def Extends (st st' : StreamState) : Prop :=
  ∃ a b c d2,
    st'.stdout = st.stdout ++ a ∧ st'.stdoutCalls = st.stdoutCalls ++ b ∧
      (b.flatten).Sublist a ∧
    st'.stderr = st.stderr ++ c ∧ st'.stderrCalls = st.stderrCalls ++ d2 ∧
      (d2.flatten).Sublist c

/-- One command-status fetch as `AsyncBoxHandle.run` reads it
(`GET .../commands/{id}` response): the raw status string and the
cumulative output snapshots. -/
structure CmdData where
  id : List Char := []
  command : Option (List Char) := none
  status : List Char
  stdout : Option (List Char) := none
  stderr : Option (List Char) := none
deriving DecidableEq, Repr

/-- Delivery-tracking state of `AsyncBoxHandle.run` (async_client.py lines
105-106): the high-water marks `last_stdout_len` / `last_stderr_len` and the
chronological callback logs. -/
structure AsyncState where
  lastStdoutLen : Nat
  lastStderrLen : Nat
  stdoutCalls : List (List Char)
  stderrCalls : List (List Char)
deriving DecidableEq, Repr

def initAsyncState : AsyncState := ⟨0, 0, [], []⟩

/-- The callback-delivery step of one polling iteration of
`AsyncBoxHandle.run` (async_client.py lines 111-123): deliver only the bytes
past the high-water mark, split with `splitlines(keepends=True)`, and advance
the mark to the current snapshot length. -/
def asyncDeliver (opts : StreamOpts) (st : AsyncState) (d : CmdData) : AsyncState :=
  let st1 :=
    match d.stdout with
    | some s =>
      if opts.onStdout ∧ s ≠ [] then
        let newOut := s.drop st.lastStdoutLen
        if newOut ≠ [] then
          { st with stdoutCalls := st.stdoutCalls ++ splitlinesKeepends newOut,
                    lastStdoutLen := s.length }
        else st
      else st
    | none => st
  match d.stderr with
  | some s =>
    if opts.onStderr ∧ s ≠ [] then
      let newErr := s.drop st1.lastStderrLen
      if newErr ≠ [] then
        { st1 with stderrCalls := st1.stderrCalls ++ splitlinesKeepends newErr,
                   lastStderrLen := s.length }
      else st1
    else st1
  | none => st1

/-- The polling loop of `AsyncBoxHandle.run` (async_client.py lines 108-148)
over a scripted sequence of command fetches: deliver new output, parse the
status (`CommandStatus(...)`, whose failure raises `ValueError`), and return
the final result at the first terminal status with `exit_code = 0` iff
`done`.  `none` means the script ran out before a terminal status. -/
def asyncRunLoop (opts : StreamOpts) :
    AsyncState → List CmdData → Option (Except TavorErr (CommandResult × AsyncState))
  | _, [] => none
  | st, d :: rest =>
    let st' := asyncDeliver opts st d
    match commandStatusOfString d.status with
    | none => some (.error (.valueError (d.status ++ " is not a valid CommandStatus".toList)))
    | some cs =>
      if cs = .done ∨ cs = .failed ∨ cs = .error then
        some (.ok ({ id := d.id, command := d.command.getD [],
                     status := cs, stdout := d.stdout.getD [], stderr := d.stderr.getD [],
                     exitCode := if cs = .done then 0 else 1 }, st'))
      else asyncRunLoop opts st' rest

/-- Invariant tying the async delivery state to the current server-side
stdout snapshot `v`: everything delivered so far is exactly the first
`lastStdoutLen` bytes of `v`, each delivered once, in order. -/
def AsyncInv (st : AsyncState) (v : List Char) : Prop :=
  st.stdoutCalls.flatten = v.take st.lastStdoutLen ∧ st.lastStdoutLen ≤ v.length

instance {ε α : Type} [DecidableEq ε] [DecidableEq α] : DecidableEq (Except ε α) := fun x y =>
  match x, y with
  | .ok a, .ok b => if h : a = b then .isTrue (by rw [h]) else .isFalse (by simp [h])
  | .error e, .error f => if h : e = f then .isTrue (by rw [h]) else .isFalse (by simp [h])
  | .ok _, .error _ => .isFalse (by simp)
  | .error _, .ok _ => .isFalse (by simp)

/-- One box-state fetch as `BoxHandle.refresh` stores it: `Box(**data)` keeps
the status as the raw string from the server (no enum coercion on this path),
so status comparisons below are string comparisons, exactly as the str-enum
equality in the source behaves. -/
structure BoxR where
  status : List Char
  details : Option (List Char) := none
deriving DecidableEq, Repr

/-- The terminal statuses `wait_until_ready` treats as failure to start
(client.py lines 72-77). -/
def boxTerminalStatuses : List (List Char) :=
  ["failed".toList, "stopped".toList, "finished".toList, "error".toList]

/-- The error message `wait_until_ready` raises on a terminal status
(client.py lines 78-81), built from the box fetched by the `self.status` read
inside the f-string, whose `details` are appended when truthy. -/
def startFailMsg (b : BoxR) : List Char :=
  "Box failed to start: ".toList ++ b.status ++
    (match b.details with
     | some d => if d ≠ [] then " - ".toList ++ d else []
     | none => [])

/-- Python truthiness of `timeout and (time.time() - start_time) > timeout`,
with elapsed time modelled as completed sleeps. -/
def timeoutExceeded (timeout : Option Nat) (sleeps : Nat) : Bool :=
  match timeout with
  | some t => sleeps > t
  | none => false

/-- The polling loop of `BoxHandle.wait_until_ready` (client.py lines 60-88)
against a scripted server: `f i` is the box returned by the `i`-th `GET
/api/v2/boxes/{id}`.  Each iteration issues `self.refresh()` (one fetch,
result immediately superseded), then reads the `status` property for the
running check (the property refreshes again: a second fetch), then reads it
again for the terminal check (a third fetch); on a terminal status the
f-string `{self.status}` refreshes a fourth time and that box supplies the
message status and details.  The state is
`(fuel, fetches issued, sleeps so far)`; the result is `(fetches, sleeps)` on
success.  Elapsed wall time is modelled as completed sleeps in units of
`poll_interval`; `timeout = none` models `timeout=None`. -/
def waitUntilReadyLoop (f : Nat → BoxR) (timeout : Option Nat) :
    Nat → Nat → Nat → Option (Except TavorErr (Nat × Nat))
  | 0, _, _ => none
  | fuel + 1, n, sleeps =>
    let b2 := f (n + 1)
    if b2.status = "running".toList then some (.ok (n + 2, sleeps))
    else
      let b3 := f (n + 2)
      if b3.status ∈ boxTerminalStatuses then
        some (.error (.tavorError (startFailMsg (f (n + 3)))))
      else if timeoutExceeded timeout sleeps then
        some (.error (.commandTimeoutError ("Box did not become ready".toList)))
      else
        waitUntilReadyLoop f timeout fuel (n + 3) (sleeps + 1)

/-- Whether a command status is terminal (client.py lines 111-115). -/
def isTerminalCmd (cs : CommandStatus) : Prop :=
  cs = CommandStatus.done ∨ cs = CommandStatus.failed ∨ cs = CommandStatus.error

instance : DecidablePred isTerminalCmd := fun cs => by
  unfold isTerminalCmd
  infer_instance

/-- The polling loop of the non-streaming branch of `BoxHandle.run`
(client.py lines 107-135) over a scripted list of command fetches, with the
number of completed sleeps threaded through.  On the first terminal fetch the
result is returned at once, without a further sleep: `exit_code` is 0 for
`done` and 1 otherwise, with the redundant re-assignment for `failed` with
non-empty stderr reproduced as in the source; `stdout`/`stderr` use
`cmd_data.get(...) or ""`.  A status string the `CommandStatus(...)` lookup
rejects raises `ValueError`.  `options.timeout` is `None` here, so the
timeout check never fires.  `none` means the script ran out before a
terminal status. -/
def pollRunLoop : List CmdData → Nat → Option (Except TavorErr (CommandResult × Nat))
  | [], _ => none
  | d :: rest, sleeps =>
    match commandStatusOfString d.status with
    | none => some (.error (.valueError (d.status ++ " is not a valid CommandStatus".toList)))
    | some cs =>
      if isTerminalCmd cs then
        let ec : Int := if cs = CommandStatus.done then 0 else 1
        let ec2 : Int := if cs = CommandStatus.failed ∧ (d.stderr.getD []) ≠ [] then 1 else ec
        some (.ok ({ id := d.id, command := d.command.getD [], status := cs,
                     stdout := d.stdout.getD [], stderr := d.stderr.getD [],
                     exitCode := ec2 }, sleeps))
      else pollRunLoop rest (sleeps + 1)

/-- An HTTP request the client issues, as logged for the lifecycle claims. -/
inductive ReqKind
  | createBox
  | getBox (id : List Char)
  | deleteBox (id : List Char)
  | pauseBox (id : List Char)
  | resumeBox (id : List Char)
  | exposePortReq (id : List Char) (port : Nat)
deriving DecidableEq, Repr

/-- The handle flag `_closed` (client.py line 36). -/
structure HandleState where
  closed : Bool
deriving DecidableEq, Repr

/-- `BoxHandle.stop` (client.py lines 265-269): on an open handle issue one
`DELETE` and mark the handle closed; on a closed handle do nothing. -/
def stopOp (boxId : List Char) (h : HandleState) (log : List ReqKind) :
    HandleState × List ReqKind :=
  if h.closed then (h, log)
  else (⟨true⟩, log ++ [.deleteBox boxId])

/-- `BoxHandle.refresh` (client.py lines 44-52), successful-response path: a
closed handle raises the generic `TavorError("Box handle is closed")` before
any request; otherwise one `GET` is issued. -/
def refreshOp (boxId : List Char) (h : HandleState) (log : List ReqKind) :
    Except TavorErr Unit × List ReqKind :=
  if h.closed then (.error (.tavorError ("Box handle is closed".toList)), log)
  else (.ok (), log ++ [.getBox boxId])

/-- `BoxHandle.pause` (client.py lines 322-331): the pause `POST` is issued
unconditionally — there is no closed-handle check — and only the trailing
`refresh` raises on a closed handle. -/
def pauseOp (boxId : List Char) (h : HandleState) (log : List ReqKind) :
    Except TavorErr Unit × List ReqKind :=
  refreshOp boxId h (log ++ [.pauseBox boxId])

/-- `BoxHandle.expose_port` (client.py lines 292-320), successful-response
path with the timestamp parsing abstracted away: the `POST` is issued with no
closed-handle check and nothing is raised locally. -/
def exposePortOp (boxId : List Char) (port : Nat) (_h : HandleState) (log : List ReqKind) :
    Except TavorErr Unit × List ReqKind :=
  (.ok (), log ++ [.exposePortReq boxId port])

/-- One step a scoped-block body can take against its box handle: call
`stop()` itself, do unrelated work, or raise an exception (which skips the
rest of the body). -/
inductive BodyStep
  | callStop
  | doWork
  | oops
deriving DecidableEq, Repr

/-- Run the body of a `with tavor.box() as box:` block: `raised` reports an
exception escaping the body; `stops` counts `box.stop()` invocations. -/
def runBody (boxId : List Char) :
    List BodyStep → HandleState → List ReqKind → Nat →
      Bool × HandleState × List ReqKind × Nat
  | [], h, log, stops => (false, h, log, stops)
  | step :: rest, h, log, stops =>
    match step with
    | .callStop =>
      let r := stopOp boxId h log
      runBody boxId rest r.1 r.2 (stops + 1)
    | .doWork => runBody boxId rest h log stops
    | .oops => (true, h, log, stops)

/-- The scoped box context manager `Tavor.box` (client.py lines 474-500; the
async `AsyncTavor.box`, async_client.py lines 364-390, has the identical
`try: yield finally: stop()` shape): create the box, run the body, and call
`stop()` in the `finally` clause on every exit path, re-raising the body's
exception afterwards.  Returns `(body raised, final handle, request log,
stop() invocation count)`. -/
def tavorBoxScope (boxId : List Char) (body : List BodyStep) :
    Bool × HandleState × List ReqKind × Nat :=
  let r := runBody boxId body ⟨false⟩ [ReqKind.createBox] 0
  let s := stopOp boxId r.2.1 r.2.2.1
  (r.1, s.1, s.2, r.2.2.2 + 1)

/-- Count of delete requests for a given box in a log. -/
def deleteCount (boxId : List Char) (log : List ReqKind) : Nat :=
  log.countP (fun r => r = ReqKind.deleteBox boxId)

/-- `Box.get_public_url` (models.py lines 97-114): raise `ValueError` when
`hostname` is falsy (absent or empty), otherwise return the pure template
`f"https://{port}-{hostname}"`.  This is a pure function of the box fields —
no network access is involved in the derivation (`BoxHandle.get_public_url`
merely refreshes the box first and then delegates here). -/
def boxGetPublicUrl (hostname : Option (List Char)) (port : Nat) :
    Except TavorErr (List Char) :=
  match hostname with
  | some host =>
    if host ≠ [] then
      .ok ("https://".toList ++ (Nat.repr port).toList ++ ('-' :: host))
    else
      .error (.valueError
        ("Box does not have a hostname. Ensure the box is created and running.".toList))
  | none =>
    .error (.valueError
      ("Box does not have a hostname. Ensure the box is created and running.".toList))

def isAsciiDigit (c : Char) : Bool :=
  '0' ≤ c ∧ c ≤ '9'

/-- Digits of a Python integer literal after the first digit: single
underscores are allowed between digits only. -/
def pyIntDigitsRest : Nat → List Char → Option Nat
  | acc, [] => some acc
  | acc, '_' :: c :: rest =>
    if isAsciiDigit c then pyIntDigitsRest (acc * 10 + (c.toNat - 48)) rest else none
  | _, ['_'] => none
  | acc, c :: rest =>
    if isAsciiDigit c then pyIntDigitsRest (acc * 10 + (c.toNat - 48)) rest else none

/-- A non-empty run of digits with optional inner underscores. -/
def pyIntDigits : List Char → Option Nat
  | [] => none
  | c :: rest => if isAsciiDigit c then pyIntDigitsRest (c.toNat - 48) rest else none

/-- Python `int(s)` on a string: strip surrounding whitespace, optional sign,
then decimal digits (underscores allowed between digits); `none` models the
`ValueError` on anything else. -/
def pyInt (s : List Char) : Option Int :=
  let t := ((s.dropWhile pyIsSpace).reverse.dropWhile pyIsSpace).reverse
  match t with
  | '+' :: rest => (pyIntDigits rest).map (fun n => (n : Int))
  | '-' :: rest => (pyIntDigits rest).map (fun n => -(n : Int))
  | rest => (pyIntDigits rest).map (fun n => (n : Int))

/-- The fields of `models.BoxConfig` the environment defaulting touches. -/
structure BoxConfig where
  cpu : Option Int
  mib_ram : Option Int
  timeout : Option Int
deriving DecidableEq, Repr

/-- The process environment read by `BoxConfig.__post_init__`
(`TAVOR_BOX_CPU`, `TAVOR_BOX_MIB_RAM`, `TAVOR_BOX_TIMEOUT`); `none` is an
unset variable. -/
structure EnvVars where
  boxCpu : Option (List Char) := none
  boxRam : Option (List Char) := none
  boxTimeout : Option (List Char) := none
deriving DecidableEq, Repr

/-- `BoxConfig.__post_init__` (models.py lines 44-68): `cpu`/`mib_ram` take
the parsed environment value only when the field is `None`; `timeout` takes
the parsed environment value whenever the field equals 600 — the dataclass
default, indistinguishable from an explicitly passed 600; an empty (falsy)
or unparseable environment value is silently ignored (`except ValueError:
pass`). -/
def boxConfigPostInit (cfg : BoxConfig) (env : EnvVars) : BoxConfig :=
  let cpu := match cfg.cpu with
    | some c => some c
    | none =>
      match env.boxCpu with
      | some s =>
        if s ≠ [] then
          match pyInt s with
          | some v => some v
          | none => none
        else none
      | none => none
  let ram := match cfg.mib_ram with
    | some r => some r
    | none =>
      match env.boxRam with
      | some s =>
        if s ≠ [] then
          match pyInt s with
          | some v => some v
          | none => none
        else none
      | none => none
  let timeout := if cfg.timeout = some 600 then
      match env.boxTimeout with
      | some s =>
        if s ≠ [] then
          match pyInt s with
          | some v => some v
          | none => cfg.timeout
        else cfg.timeout
      | none => cfg.timeout
    else cfg.timeout
  { cpu := cpu, mib_ram := ram, timeout := timeout }

/-- If no separator was found, the buffer is the whole input. -/
theorem splitBuf_fst_nil : ∀ {z : List Char}, (splitBuf z).1 = [] → (splitBuf z).2 = z := by
  intro z
  induction z using splitBuf.induct with
  | case1 => intro _; rfl
  | case2 c => intro _; rfl
  | case3 c1 c2 rest h ih =>
    intro hx
    simp only [splitBuf, h, if_true, if_pos] at hx
    simp at hx
  | case4 c1 c2 rest h r hr ih =>
    intro _
    have hr' : (splitBuf (c2 :: rest)).1 = [] := hr
    simp only [splitBuf, if_neg h]
    rw [hr']
    simp [ih hr']
  | case5 c1 c2 rest h r s ss hr ih =>
    intro hx
    have hr' : (splitBuf (c2 :: rest)).1 = s :: ss := hr
    simp only [splitBuf, if_neg h] at hx
    rw [hr'] at hx
    simp at hx

/-- One-character cons step of `splitBuf`, valid when the new character does
not complete a separator with the head of the remainder. -/
theorem splitBuf_cons (c : Char) (z : List Char)
    (h : ¬(c = '\n' ∧ z.head? = some '\n')) :
    splitBuf (c :: z) =
      match (splitBuf z).1 with
      | [] => ([], c :: (splitBuf z).2)
      | s :: ss => ((c :: s) :: ss, (splitBuf z).2) := by
  match z with
  | [] => rfl
  | c2 :: rest =>
    have hne : ¬(c = '\n' && c2 = '\n') = true := by
      simp only [Bool.and_eq_true, decide_eq_true_eq]
      intro hand
      exact h ⟨hand.1, by simp [hand.2]⟩
    simp only [splitBuf, if_neg hne]

/-- Splitting a concatenation agrees with splitting the first part and then
re-splitting its trailing buffer extended by the second part.  This is the
fact that makes the chunk-by-chunk SSE framing loop insensitive to where the
input stream is cut. -/
theorem splitBuf_append (x : List Char) : ∀ (y : List Char),
    splitBuf (x ++ y) =
      ((splitBuf x).1 ++ (splitBuf ((splitBuf x).2 ++ y)).1,
       (splitBuf ((splitBuf x).2 ++ y)).2) := by
  induction x using splitBuf.induct with
  | case1 => intro y; simp [splitBuf]
  | case2 c => intro y; simp [splitBuf]
  | case3 c1 c2 rest h ih =>
    intro y
    simp only [List.cons_append, splitBuf, if_pos h, List.append_eq, ih y]
  | case4 c1 c2 rest h r hr ih =>
    intro y
    have hr' : (splitBuf (c2 :: rest)).1 = [] := hr
    have hb : (splitBuf (c2 :: rest)).2 = c2 :: rest := splitBuf_fst_nil hr'
    conv_rhs => rw [show splitBuf (c1 :: c2 :: rest) = ([], c1 :: c2 :: rest) by
      simp only [splitBuf, if_neg h]; rw [hr']; simp [hb]]
    simp
  | case5 c1 c2 rest h r s ss hr ih =>
    intro y
    have hr' : (splitBuf (c2 :: rest)).1 = s :: ss := hr
    have hx : splitBuf (c1 :: c2 :: rest) = ((c1 :: s) :: ss, (splitBuf (c2 :: rest)).2) := by
      simp only [splitBuf, if_neg h]; rw [hr']
    have hmid := ih y
    rw [List.cons_append] at hmid
    calc splitBuf (c1 :: c2 :: rest ++ y)
        = splitBuf (c1 :: c2 :: (rest ++ y)) := by simp
      _ = ((c1 :: s) :: (ss ++ (splitBuf ((splitBuf (c2 :: rest)).2 ++ y)).1),
            (splitBuf ((splitBuf (c2 :: rest)).2 ++ y)).2) := by
            simp only [splitBuf, if_neg h, List.append_eq, hmid, hr']
            rfl
      _ = _ := by rw [hx]; simp

/-- Processing two fragments in sequence is the same as processing their
concatenation: the held buffer makes the framing loop insensitive to the cut
point. -/
theorem sseFrameStep_append (st : List SSEEvent × List Char) (c1 c2 : List Char) :
    sseFrameStep (sseFrameStep st c1) c2 = sseFrameStep st (c1 ++ c2) := by
  rcases eq_or_ne c1 [] with h1 | h1
  · subst h1; simp [sseFrameStep]
  rcases eq_or_ne c2 [] with h2 | h2
  · subst h2
    simp [sseFrameStep, List.isEmpty_iff, h1]
  have hne : ¬(c1 ++ c2).isEmpty := by
    simp [List.isEmpty_iff, h1]
  simp only [sseFrameStep, List.isEmpty_iff, if_neg h1, if_neg h2, if_neg hne]
  have := splitBuf_append (st.2 ++ c1) c2
  rw [List.append_assoc] at this
  simp only [this, List.filter_append, List.flatMap_append, List.append_assoc]
  rw [if_neg (by simp [h1])]

/-- Folding the framing loop over any fragment list equals one pass over the
concatenated stream. -/
theorem sseFrameFold_flatten (chunks : List (List Char)) :
    ∀ st, chunks.foldl sseFrameStep st = sseFrameStep st chunks.flatten := by
  induction chunks with
  | nil =>
    intro st
    simp [sseFrameStep]
  | cons c cs ih =>
    intro st
    simp only [List.foldl_cons, ih, List.flatten_cons, sseFrameStep_append]

/-- A separator-free string splits into no complete segment. -/
theorem splitBuf_of_not_hasSep : ∀ {r : List Char}, hasSep r = false → splitBuf r = ([], r) := by
  intro r
  induction r using splitBuf.induct with
  | case1 => intro _; rfl
  | case2 c => intro _; rfl
  | case3 c1 c2 rest h ih =>
    intro hs
    simp [hasSep, h] at hs
  | case4 c1 c2 rest h r hr ih =>
    intro hs
    have hs' : hasSep (c2 :: rest) = false := by
      simp only [hasSep, Bool.or_eq_false_iff] at hs
      exact hs.2
    simp only [splitBuf, if_neg h, ih hs']
  | case5 c1 c2 rest h r s ss hr ih =>
    intro hs
    have hs' : hasSep (c2 :: rest) = false := by
      simp only [hasSep, Bool.or_eq_false_iff] at hs
      exact hs.2
    have := ih hs'
    have hr' : (splitBuf (c2 :: rest)).1 = s :: ss := hr
    rw [this] at hr'
    simp at hr'

/-- Appending the blank-line delimiter to a separator-free record that does
not end in a newline yields exactly that record as the single complete
segment, with an empty trailing buffer. -/
theorem splitBuf_record_delim : ∀ {r : List Char}, hasSep r = false →
    r.getLast? ≠ some '\n' → splitBuf (r ++ ['\n', '\n']) = ([r], []) := by
  intro r
  induction r using splitBuf.induct with
  | case1 => intro _ _; rfl
  | case2 c =>
    intro _ hl
    have hc : ¬(c = '\n') := by
      intro h; exact hl (by simp [h, List.getLast?])
    simp [splitBuf, hc]
  | case3 c1 c2 rest h ih =>
    intro hs _
    simp [hasSep, h] at hs
  | case4 c1 c2 rest h r hr ih =>
    intro hs hl
    have hs' : hasSep (c2 :: rest) = false := by
      simp only [hasSep, Bool.or_eq_false_iff] at hs
      exact hs.2
    have hl' : (c2 :: rest).getLast? ≠ some '\n' := by
      simpa [List.getLast?_cons_cons] using hl
    have := ih hs' hl'
    rw [List.cons_append] at this
    simp only [List.cons_append, List.append_eq, splitBuf, if_neg h, this]
  | case5 c1 c2 rest h r s ss hr ih =>
    intro hs hl
    have hs' : hasSep (c2 :: rest) = false := by
      simp only [hasSep, Bool.or_eq_false_iff] at hs
      exact hs.2
    have := splitBuf_of_not_hasSep hs'
    have hr' : (splitBuf (c2 :: rest)).1 = s :: ss := hr
    rw [this] at hr'
    simp at hr'

/-- A stream made of well-formed delimiter-terminated records splits into
exactly those records with nothing left in the buffer. -/
theorem splitBuf_records (records : List (List Char))
    (h : ∀ r ∈ records, hasSep r = false ∧ r.getLast? ≠ some '\n') :
    splitBuf ((records.map (fun r => r ++ ['\n', '\n'])).flatten) = (records, []) := by
  induction records with
  | nil => rfl
  | cons r rs ih =>
    have hr := h r (by simp)
    have hrec := splitBuf_record_delim hr.1 hr.2
    simp only [List.map_cons, List.flatten_cons]
    rw [splitBuf_append, hrec]
    simp only [List.nil_append]
    rw [ih (fun q hq => h q (by simp [hq]))]
    simp

/-- On a well-formed record, one framed message yields exactly one parsed
event. -/
theorem eventsOfMessage_eq {r : List Char} (h1 : hasSep r = false)
    (h2 : r.getLast? ≠ some '\n') (h3 : pyStripIsEmpty r = false) :
    eventsOfMessage r = [parseSseRecord r] := by
  unfold eventsOfMessage parseSseStream
  rw [splitBuf_record_delim h1 h2]
  simp [h3]

/-- When a function returns singletons over a list, flat-mapping it is mapping
the singleton contents. -/
theorem flatMap_eq_map_of_singletons {α β : Type} (f : α → List β) (g : α → β) :
    ∀ (l : List α), (∀ x ∈ l, f x = [g x]) → l.flatMap f = l.map g := by
  intro l h
  induction l with
  | nil => rfl
  | cons a as ih =>
    simp only [List.flatMap_cons, List.map_cons, h a (by simp),
      ih (fun x hx => h x (by simp [hx]))]
    rfl

/-- C2: for every text stream whose concatenation forms well-formed SSE
records and every way of splitting it into fragments, the streaming loop of
`BoxHandle._run_with_streaming` recovers exactly those records as `(event,
data)` pairs, one per record, no matter where the fragment boundaries fall. -/
theorem sse_stream_chunking_agnostic (records chunks : List (List Char))
    (hwf : ∀ r ∈ records, WfRecord r)
    (hcat : chunks.flatten = (records.map (fun r => r ++ ['\n', '\n'])).flatten) :
    (sseFrameEvents chunks).1 = records.map parseSseRecord ∧
      (sseFrameEvents chunks).1.length = records.length := by
  have hmain : (sseFrameEvents chunks).1 = records.map parseSseRecord := by
    unfold sseFrameEvents
    rw [sseFrameFold_flatten, hcat]
    cases records with
    | nil => simp [sseFrameStep]
    | cons r0 rs =>
      have hstream := splitBuf_records (r0 :: rs)
        (fun q hq => ⟨(hwf q hq).1, (hwf q hq).2.1⟩)
      have hne : ¬((((r0 :: rs).map (fun r => r ++ ['\n', '\n'])).flatten).isEmpty = true) := by
        simp only [List.map_cons, List.flatten_cons, List.isEmpty_iff]
        intro hx
        have := congrArg List.length hx
        simp at this
      simp only [sseFrameStep, if_neg hne, List.nil_append]
      rw [hstream]
      simp only [List.nil_append]
      rw [List.filter_eq_self.mpr (fun q hq => by
        simpa using (hwf q hq).2.2)]
      exact flatMap_eq_map_of_singletons _ _ _
        (fun q hq => eventsOfMessage_eq (hwf q hq).1 (hwf q hq).2.1 (hwf q hq).2.2)
  exact ⟨hmain, by rw [hmain]; simp⟩

/-- Witness for C2 at a concrete fragmentation: two records, five fragments
with cuts inside field names, inside data, and at the record delimiter. -/
theorem sse_stream_chunking_agnostic_witness :
    (∀ r ∈ [("event: output\ndata: abc").toList, ("data: done").toList], WfRecord r) ∧
      ["event: out".toList, "put\nda".toList, "ta: abc\n".toList, "\nda".toList,
          "ta: done\n\n".toList].flatten =
        ([("event: output\ndata: abc").toList, ("data: done").toList].map
          (fun r => r ++ ['\n', '\n'])).flatten ∧
      (sseFrameEvents ["event: out".toList, "put\nda".toList, "ta: abc\n".toList,
          "\nda".toList, "ta: done\n\n".toList]).1 =
        [("event: output\ndata: abc").toList, ("data: done").toList].map parseSseRecord ∧
      (sseFrameEvents ["event: out".toList, "put\nda".toList, "ta: abc\n".toList,
          "\nda".toList, "ta: done\n\n".toList]).1.length = 2 :=
  ⟨by decide, by decide,
    sse_stream_chunking_agnostic
      [("event: output\ndata: abc").toList, ("data: done").toList]
      ["event: out".toList, "put\nda".toList, "ta: abc\n".toList, "\nda".toList,
        "ta: done\n\n".toList] (by decide) (by decide)⟩

/-- C1 counterexample: with output events delivering `"ab"` then `"c\n"` the
stdout callback fires twice, with `"ab"` and then `"c"` — not once with
`"abc"`: the loop does not buffer a partial trailing line across events. -/
theorem stream_unterminated_line_not_buffered :
    (runStreamEvents ("cmd".toList) ⟨true, false⟩ initStreamState
        [outputStdoutEvent ("ab".toList), outputStdoutEvent ("c\n".toList)]).2.stdoutCalls
      = ["ab".toList, "c".toList] ∧
    (runStreamEvents ("cmd".toList) ⟨true, false⟩ initStreamState
        [outputStdoutEvent ("ab".toList), outputStdoutEvent ("c\n".toList)]).2.stdoutCalls.length
      = 2 := by
  decide

/-- C1 (amended): for every sequence of non-empty stdout payloads delivered
by `output` events, the stdout callback is invoked once per
`splitlines(keepends=True)` segment of each individual payload, with trailing
newlines stripped; a partial trailing line is passed through immediately, not
held for the next event. -/
theorem stream_output_lines_per_event (cmd : List Char) (ps : List (List Char))
    (h : ∀ p ∈ ps, p ≠ []) : ∀ st : StreamState,
    (runStreamEvents cmd ⟨true, false⟩ st (ps.map outputStdoutEvent)).2.stdoutCalls
        = st.stdoutCalls ++ ps.flatMap streamCallbackLines ∧
      (runStreamEvents cmd ⟨true, false⟩ st (ps.map outputStdoutEvent)).2.stdout
        = st.stdout ++ ps.flatten := by
  induction ps with
  | nil =>
    intro st
    simp [runStreamEvents]
  | cons p ps ih =>
    intro st
    have hp : p ≠ [] := h p (by simp)
    have hrest := ih (fun q hq => h q (by simp [hq]))
    have hstep : stepStreamEvent cmd ⟨true, false⟩ st (outputStdoutEvent p) =
        .next { st with stdout := st.stdout ++ p,
                        stdoutCalls := st.stdoutCalls ++ streamCallbackLines p } := by
      simp [stepStreamEvent, outputStdoutEvent, hp]
    simp only [List.map_cons, runStreamEvents, hstep]
    rw [(hrest _).1, (hrest _).2]
    constructor
    · simp
    · simp

/-- Witness for the amended C1 at the claim's own input: payloads `"ab"` then
`"c\n"` produce exactly the two calls `"ab"` and `"c"`. -/
theorem stream_output_lines_per_event_witness :
    (∀ p ∈ ["ab".toList, "c\n".toList], p ≠ []) ∧
      (runStreamEvents ("cmd".toList) ⟨true, false⟩ initStreamState
          (["ab".toList, "c\n".toList].map outputStdoutEvent)).2.stdoutCalls
        = initStreamState.stdoutCalls ++ ["ab".toList, "c\n".toList].flatMap streamCallbackLines ∧
      ["ab".toList, "c\n".toList].flatMap streamCallbackLines = ["ab".toList, "c".toList] :=
  ⟨by decide,
    (stream_output_lines_per_event ("cmd".toList) ["ab".toList, "c\n".toList]
      (by decide) initStreamState).1,
    by decide⟩

/-- Dispatching a non-terminating event always continues the loop. -/
theorem stepStreamEvent_next_of_nonTerminating (cmd : List Char) (opts : StreamOpts)
    (st : StreamState) {ev : StreamEvent} (h : nonTerminating ev = true) :
    ∃ st', stepStreamEvent cmd opts st ev = .next st' := by
  match hj : ev.json with
  | none => exact ⟨st, by simp [stepStreamEvent, hj]⟩
  | some d =>
    simp only [nonTerminating, hj, Bool.and_eq_true, Bool.not_eq_true',
      decide_eq_false_iff_not, Bool.or_eq_true] at h
    obtain ⟨⟨⟨hend, herr⟩, htim⟩, hstat⟩ := h
    simp only [stepStreamEvent, hj]
    by_cases h1 : ev.name = "start".toList
    · rw [if_pos h1]
      exact ⟨_, rfl⟩
    rw [if_neg h1]
    by_cases h2 : ev.name = "output".toList
    · rw [if_pos h2]
      exact ⟨_, rfl⟩
    rw [if_neg h2]
    by_cases h3 : ev.name = "status".toList
    · rw [if_pos h3]
      have hok2 : ∃ s cs, d.status = some s ∧ commandStatusOfString s = some cs := by
        rcases hstat with hbad | hok
        · exact absurd h3 hbad
        · match hds : d.status with
          | none => rw [hds] at hok; simp at hok
          | some s =>
            rw [hds] at hok
            simp only [Option.isSome_iff_exists] at hok
            obtain ⟨cs, hcs⟩ := hok
            exact ⟨s, cs, rfl, hcs⟩
      obtain ⟨s, cs, hds, hcs⟩ := hok2
      simp only [hds, hcs]
      cases d.exit_code
      · exact ⟨_, rfl⟩
      · exact ⟨_, rfl⟩
    rw [if_neg h3, if_neg hend, if_neg herr, if_neg htim]
    exact ⟨st, rfl⟩

/-- C8: if the scripted event stream ends (the connection closes) without an
`end` event — indeed without any terminating event — the loop returns the
accumulated `CommandResult` built from its final state, raising nothing. -/
theorem stream_close_returns_accumulated (cmd : List Char) (opts : StreamOpts)
    (events : List StreamEvent) (h : ∀ ev ∈ events, nonTerminating ev = true) :
    ∀ st, runStreamEvents cmd opts st events =
      (.ok (mkStreamResult cmd (runStreamEvents cmd opts st events).2),
        (runStreamEvents cmd opts st events).2) := by
  induction events with
  | nil => intro st; rfl
  | cons ev rest ih =>
    intro st
    obtain ⟨st', hst'⟩ := stepStreamEvent_next_of_nonTerminating cmd opts st (h ev (by simp))
    simp only [runStreamEvents, hst']
    exact ih (fun e he => h e (by simp [he])) st'

/-- Witness for C8: a `start`, an `output`, a `status` and an undecodable
event, then the connection closes; the run returns `ok` with the accumulated
stdout, the captured command id, and the last observed status, raising
nothing. -/
theorem stream_close_returns_accumulated_witness :
    (∀ ev ∈ [(⟨"start".toList, some { command_id := some ("cmd-1".toList) }⟩ : StreamEvent),
        outputStdoutEvent ("hi\n".toList),
        ⟨"status".toList, some { status := some ("running".toList), exit_code := some 7 }⟩,
        ⟨"output".toList, none⟩], nonTerminating ev = true) ∧
      runStreamEvents ("c".toList) ⟨true, false⟩ initStreamState
          [⟨"start".toList, some { command_id := some ("cmd-1".toList) }⟩,
            outputStdoutEvent ("hi\n".toList),
            ⟨"status".toList, some { status := some ("running".toList), exit_code := some 7 }⟩,
            ⟨"output".toList, none⟩] =
        (.ok (mkStreamResult ("c".toList)
            (runStreamEvents ("c".toList) ⟨true, false⟩ initStreamState
              [⟨"start".toList, some { command_id := some ("cmd-1".toList) }⟩,
                outputStdoutEvent ("hi\n".toList),
                ⟨"status".toList, some { status := some ("running".toList), exit_code := some 7 }⟩,
                ⟨"output".toList, none⟩]).2),
          (runStreamEvents ("c".toList) ⟨true, false⟩ initStreamState
            [⟨"start".toList, some { command_id := some ("cmd-1".toList) }⟩,
              outputStdoutEvent ("hi\n".toList),
              ⟨"status".toList, some { status := some ("running".toList), exit_code := some 7 }⟩,
              ⟨"output".toList, none⟩]).2) ∧
      (runStreamEvents ("c".toList) ⟨true, false⟩ initStreamState
          [⟨"start".toList, some { command_id := some ("cmd-1".toList) }⟩,
            outputStdoutEvent ("hi\n".toList),
            ⟨"status".toList, some { status := some ("running".toList), exit_code := some 7 }⟩,
            ⟨"output".toList, none⟩]).1.toOption =
        some { id := "cmd-1".toList, command := "c".toList, status := CommandStatus.running,
               stdout := "hi\n".toList, stderr := [], exitCode := 7 } :=
  ⟨by decide,
    stream_close_returns_accumulated ("c".toList) ⟨true, false⟩ _ (by decide) initStreamState,
    by decide⟩

/-- `splitlines(keepends=True)` loses no characters: the segments concatenate
back to the input. -/
theorem flatten_splitlinesKeepends : ∀ s : List Char, (splitlinesKeepends s).flatten = s := by
  intro s
  induction s using splitlinesKeepends.induct with
  | case1 => rfl
  | case2 c => rfl
  | case3 c1 c2 rest h ih =>
    obtain ⟨h1, h2⟩ := h
    subst h1; subst h2
    simp [splitlinesKeepends, ih]
  | case4 c1 c2 rest h hlb ih =>
    simp only [splitlinesKeepends, if_neg h, if_pos hlb, List.flatten_cons, ih]
    rfl
  | case5 c1 c2 rest h hlb hnil ih =>
    rw [hnil] at ih
    simp at ih
  | case6 c1 c2 rest h hlb l ls hcons ih =>
    rw [hcons] at ih
    simp only [splitlinesKeepends, if_neg h, if_neg hlb, hcons, List.flatten_cons] at ih ⊢
    simpa using ih

/-- Stripping trailing newlines yields a sublist. -/
theorem rstripNl_sublist (s : List Char) : (rstripNl s).Sublist s := by
  have h1 : (s.reverse.dropWhile (fun c => c = '\n')).Sublist s.reverse :=
    List.dropWhile_sublist _
  have := List.reverse_sublist.mpr h1
  simpa [rstripNl] using this

/-- Dropping empty segments does not change the concatenation. -/
theorem flatten_filter_nonempty (ls : List (List Char)) :
    (ls.filter (fun l => !l.isEmpty)).flatten = ls.flatten := by
  induction ls with
  | nil => rfl
  | cons l ls ih =>
    by_cases h : l = []
    · subst h; simpa using ih
    · simp [List.filter_cons, h, List.isEmpty_iff, ih]

/-- Mapping a per-segment sublist operation keeps the concatenation a
sublist. -/
theorem flatten_map_rstripNl_sublist (ls : List (List Char)) :
    ((ls.map rstripNl).flatten).Sublist ls.flatten := by
  induction ls with
  | nil => simp
  | cons l ls ih =>
    simpa using List.Sublist.append (rstripNl_sublist l) ih

/-- The bytes handed to a callback by one output payload are a sublist of
that payload: lines are only ever cut at line boundaries and stripped of
trailing newlines, never duplicated. -/
theorem streamCallbackLines_flatten_sublist (s : List Char) :
    ((streamCallbackLines s).flatten).Sublist s := by
  unfold streamCallbackLines
  calc ((((splitlinesKeepends s).filter (fun l => !l.isEmpty)).map rstripNl).flatten).Sublist
        (((splitlinesKeepends s).filter (fun l => !l.isEmpty)).flatten) :=
        flatten_map_rstripNl_sublist _
    _ = (splitlinesKeepends s).flatten := flatten_filter_nonempty _
    _ = s := flatten_splitlinesKeepends s

theorem Extends.rfl (st : StreamState) : Extends st st :=
  ⟨[], [], [], [], by simp, by simp, by simp, by simp, by simp, by simp⟩

theorem Extends.trans {s1 s2 s3 : StreamState} (h1 : Extends s1 s2) (h2 : Extends s2 s3) :
    Extends s1 s3 := by
  obtain ⟨a, b, c, d2, ha, hb, hab, hc, hd, hcd⟩ := h1
  obtain ⟨a', b', c', d2', ha', hb', hab', hc', hd', hcd'⟩ := h2
  refine ⟨a ++ a', b ++ b', c ++ c', d2 ++ d2', ?_, ?_, ?_, ?_, ?_, ?_⟩
  · rw [ha', ha, List.append_assoc]
  · rw [hb', hb, List.append_assoc]
  · simpa using List.Sublist.append hab hab'
  · rw [hc', hc, List.append_assoc]
  · rw [hd', hd, List.append_assoc]
  · simpa using List.Sublist.append hcd hcd'

/-- A state that differs only in non-output fields extends the original. -/
theorem Extends.of_fields {st st' : StreamState} (h1 : st'.stdout = st.stdout)
    (h2 : st'.stdoutCalls = st.stdoutCalls) (h3 : st'.stderr = st.stderr)
    (h4 : st'.stderrCalls = st.stderrCalls) : Extends st st' :=
  ⟨[], [], [], [], by simp [h1], by simp [h2], by simp, by simp [h3], by simp [h4], by simp⟩

/-- Every dispatch outcome carries a state extending the input state: bytes
are appended to the accumulators, callback deliveries are cut from exactly
the newly appended bytes, and nothing is ever re-delivered. -/
theorem stepStreamEvent_extends (cmd : List Char) (opts : StreamOpts) (st : StreamState)
    (ev : StreamEvent) :
    (∀ st', stepStreamEvent cmd opts st ev = .next st' → Extends st st') ∧
    (∀ r st', stepStreamEvent cmd opts st ev = .finish r st' → Extends st st') ∧
    (∀ e st', stepStreamEvent cmd opts st ev = .raiseE e st' → Extends st st') := by
  match hj : ev.json with
  | none =>
    refine ⟨?_, ?_, ?_⟩ <;> intros <;> rename_i h <;>
      simp only [stepStreamEvent, hj] at h <;> first
      | (cases h; exact Extends.rfl st)
      | cases h
  | some d =>
    simp only [stepStreamEvent, hj]
    by_cases h1 : ev.name = "start".toList
    · rw [if_pos h1]
      refine ⟨?_, ?_, ?_⟩ <;> intros <;> rename_i h
      · cases h
        exact Extends.of_fields rfl rfl rfl rfl
      · cases h
      · cases h
    rw [if_neg h1]
    by_cases h2 : ev.name = "output".toList
    · rw [if_pos h2]
      refine ⟨?_, ?_, ?_⟩ <;> intros <;> rename_i h
      case _ =>
        cases h
        have hfst : ∀ s : List Char, s ≠ [] →
            Extends st { st with stdout := st.stdout ++ s,
                                 stdoutCalls := st.stdoutCalls ++
                                   (if opts.onStdout then streamCallbackLines s else []) } := by
          intro s _
          refine ⟨s, if opts.onStdout then streamCallbackLines s else [], [], [],
            rfl, rfl, ?_, by simp, by simp, by simp⟩
          by_cases ho : opts.onStdout
          · simpa [ho] using streamCallbackLines_flatten_sublist s
          · simp [ho]
        have hmid : ∀ st1 : StreamState, Extends st st1 →
            Extends st (match d.stderr with
              | some s =>
                if s ≠ [] then
                  { st1 with stderr := st1.stderr ++ s,
                             stderrCalls := st1.stderrCalls ++
                               (if opts.onStderr then streamCallbackLines s else []) }
                else st1
              | none => st1) := by
          intro st1 hext
          split
          · rename_i s heq
            by_cases hs : s ≠ []
            · rw [if_pos hs]
              refine hext.trans ⟨[], [], s, if opts.onStderr then streamCallbackLines s else [],
                by simp, by simp, by simp, rfl, rfl, ?_⟩
              by_cases ho : opts.onStderr
              · simpa [ho] using streamCallbackLines_flatten_sublist s
              · simp [ho]
            · rw [if_neg hs]
              exact hext
          · exact hext
        refine hmid _ ?_
        split
        · rename_i s heq
          by_cases hs : s ≠ []
          · rw [if_pos hs]
            exact hfst s hs
          · rw [if_neg hs]
            exact Extends.rfl st
        · exact Extends.rfl st
      case _ => cases h
      case _ => cases h
    rw [if_neg h2]
    by_cases h3 : ev.name = "status".toList
    · rw [if_pos h3]
      refine ⟨?_, ?_, ?_⟩ <;> intros <;> rename_i h
      · split at h
        · cases h
        · split at h
          · cases h
          · split at h
            · cases h; exact Extends.of_fields rfl rfl rfl rfl
            · cases h; exact Extends.of_fields rfl rfl rfl rfl
      · split at h
        · cases h
        · split at h
          · cases h
          · split at h <;> cases h
      · split at h
        · cases h; exact Extends.rfl st
        · split at h
          · cases h; exact Extends.rfl st
          · split at h <;> cases h
    rw [if_neg h3]
    by_cases h4 : ev.name = "end".toList
    · rw [if_pos h4]
      refine ⟨?_, ?_, ?_⟩ <;> intros <;> rename_i h
      · by_cases h5 : d.status = some ("error".toList)
        · rw [if_pos h5] at h; cases h
        · rw [if_neg h5] at h
          by_cases h6 : d.status = some ("timeout".toList)
          · rw [if_pos h6] at h; cases h
          · rw [if_neg h6] at h; cases h
      · by_cases h5 : d.status = some ("error".toList)
        · rw [if_pos h5] at h
          cases h
          exact Extends.of_fields rfl rfl rfl rfl
        · rw [if_neg h5] at h
          by_cases h6 : d.status = some ("timeout".toList)
          · rw [if_pos h6] at h; cases h
          · rw [if_neg h6] at h; cases h; exact Extends.rfl st
      · by_cases h5 : d.status = some ("error".toList)
        · rw [if_pos h5] at h; cases h
        · rw [if_neg h5] at h
          by_cases h6 : d.status = some ("timeout".toList)
          · rw [if_pos h6] at h; cases h; exact Extends.rfl st
          · rw [if_neg h6] at h; cases h
    rw [if_neg h4]
    by_cases h5 : ev.name = "error".toList
    · rw [if_pos h5]
      refine ⟨?_, ?_, ?_⟩ <;> intros <;> rename_i h
      · cases h
      · cases h
      · cases h; exact Extends.rfl st
    rw [if_neg h5]
    by_cases h6 : ev.name = "timeout".toList
    · rw [if_pos h6]
      refine ⟨?_, ?_, ?_⟩ <;> intros <;> rename_i h
      · cases h
      · cases h
      · cases h; exact Extends.rfl st
    rw [if_neg h6]
    refine ⟨?_, ?_, ?_⟩ <;> intros <;> rename_i h
    · cases h; exact Extends.rfl st
    · cases h
    · cases h

/-- The final state of a streaming run extends its initial state. -/
theorem runStreamEvents_extends (cmd : List Char) (opts : StreamOpts) :
    ∀ (events : List StreamEvent) (st : StreamState),
      Extends st (runStreamEvents cmd opts st events).2 := by
  intro events
  induction events with
  | nil => intro st; exact Extends.rfl st
  | cons ev rest ih =>
    intro st
    cases hout : stepStreamEvent cmd opts st ev with
    | next st' =>
      simp only [runStreamEvents, hout]
      exact ((stepStreamEvent_extends cmd opts st ev).1 st' hout).trans (ih st')
    | finish r st' =>
      simp only [runStreamEvents, hout]
      exact (stepStreamEvent_extends cmd opts st ev).2.1 r st' hout
    | raiseE e st' =>
      simp only [runStreamEvents, hout]
      exact (stepStreamEvent_extends cmd opts st ev).2.2 e st' hout

/-- Processing more events only ever extends the state reached on a prefix:
accumulators and callback logs grow monotonically across any cut point. -/
theorem runStreamEvents_take_extends (cmd : List Char) (opts : StreamOpts)
    (l1 l2 : List StreamEvent) : ∀ st,
    Extends (runStreamEvents cmd opts st l1).2 (runStreamEvents cmd opts st (l1 ++ l2)).2 := by
  induction l1 with
  | nil =>
    intro st
    simpa [runStreamEvents] using runStreamEvents_extends cmd opts l2 st
  | cons ev rest ih =>
    intro st
    cases hout : stepStreamEvent cmd opts st ev with
    | next st' =>
      simp only [List.cons_append, runStreamEvents, hout]
      exact ih st'
    | finish r st' =>
      simp only [List.cons_append, runStreamEvents, hout]
      exact Extends.rfl st'
    | raiseE e st' =>
      simp only [List.cons_append, runStreamEvents, hout]
      exact Extends.rfl st'

theorem take_eq_of_isPrefixOf {v w : List Char} (h : v <+: w) {n : Nat}
    (hn : n ≤ v.length) : v.take n = w.take n := by
  obtain ⟨t, rfl⟩ := h
  rw [List.take_append_of_le_length hn]

/-- One async delivery step preserves the invariant against the new snapshot
and leaves the high-water mark at the snapshot length. -/
theorem asyncDeliver_inv (opts : StreamOpts) (hopt : opts.onStdout = true)
    (st : AsyncState) (d : CmdData) {v : List Char}
    (hinv : AsyncInv st v) (hpre : v <+: (d.stdout.getD [])) :
    AsyncInv (asyncDeliver opts st d) (d.stdout.getD []) ∧
      (asyncDeliver opts st d).lastStdoutLen = (d.stdout.getD []).length ∧
      (asyncDeliver opts st d).stdoutCalls.flatten = d.stdout.getD [] := by
  have hcore : ∀ st1 : AsyncState,
      (st1.stdoutCalls = (match d.stdout with
        | some s =>
          if opts.onStdout ∧ s ≠ [] then
            if s.drop st.lastStdoutLen ≠ [] then
              { st with stdoutCalls := st.stdoutCalls ++ splitlinesKeepends (s.drop st.lastStdoutLen),
                        lastStdoutLen := s.length }
            else st
          else st
        | none => st).stdoutCalls) →
      (st1.lastStdoutLen = (match d.stdout with
        | some s =>
          if opts.onStdout ∧ s ≠ [] then
            if s.drop st.lastStdoutLen ≠ [] then
              { st with stdoutCalls := st.stdoutCalls ++ splitlinesKeepends (s.drop st.lastStdoutLen),
                        lastStdoutLen := s.length }
            else st
          else st
        | none => st).lastStdoutLen) →
      AsyncInv st1 (d.stdout.getD []) ∧
        st1.lastStdoutLen = (d.stdout.getD []).length ∧
        st1.stdoutCalls.flatten = d.stdout.getD [] := by
    intro st1 hcalls hlen
    match hd : d.stdout with
    | none =>
      rw [hd] at hcalls hlen
      simp only at hcalls hlen
      have hv : v = [] := by
        have := hpre
        rw [hd] at this
        simpa using this
      rw [hv] at hinv
      obtain ⟨hiv, hil⟩ := hinv
      simp only [List.length_nil, Nat.le_zero] at hil
      constructor
      · constructor
        · rw [hcalls, hiv]
          simp [hlen, hil]
        · simp [hlen, hil]
      · constructor
        · simp [hlen, hil]
        · rw [hcalls, hiv]
          simp [hil]
    | some s =>
      rw [hd] at hcalls hlen
      simp only at hcalls hlen
      by_cases hse : s = []
      · subst hse
        simp only [hopt, ne_eq, not_true_eq_false, and_false, if_false] at hcalls hlen
        have hv : v = [] := by
          have := hpre
          rw [hd] at this
          simpa using this
        rw [hv] at hinv
        obtain ⟨hiv, hil⟩ := hinv
        simp only [List.length_nil, Nat.le_zero] at hil
        refine ⟨⟨?_, ?_⟩, ?_, ?_⟩
        · rw [hcalls, hiv]; simp [hlen, hil]
        · simp [hlen, hil]
        · simp [hlen, hil]
        · rw [hcalls, hiv]; simp [hil]
      · have hcond : opts.onStdout = true ∧ s ≠ [] := ⟨hopt, hse⟩
        rw [if_pos hcond] at hcalls hlen
        obtain ⟨hiv, hil⟩ := hinv
        have hvs : v.length ≤ s.length := by
          have : v <+: s := by rw [hd] at hpre; simpa using hpre
          exact this.length_le
        have htake : v.take st.lastStdoutLen = s.take st.lastStdoutLen :=
          take_eq_of_isPrefixOf (by rw [hd] at hpre; simpa using hpre) hil
        by_cases hdrop : s.drop st.lastStdoutLen = []
        · rw [if_neg (by simpa using hdrop)] at hcalls hlen
          have hlast : s.length ≤ st.lastStdoutLen := by
            have := congrArg List.length hdrop
            simp at this
            omega
          have hlast2 : st.lastStdoutLen = s.length := le_antisymm (le_trans hil hvs) hlast
          refine ⟨⟨?_, ?_⟩, ?_, ?_⟩
          · rw [hcalls, hiv, htake, hlen]
            simp [hd]
          · simp [hd, hlen, hlast2]
          · simp [hd, hlen, hlast2]
          · rw [hcalls, hiv, htake, hlast2]
            simp [hd]
        · rw [if_pos (by simpa using hdrop)] at hcalls hlen
          simp only at hcalls hlen
          have hflat : st1.stdoutCalls.flatten = s := by
            rw [hcalls]
            simp only [List.flatten_append, hiv, htake, flatten_splitlinesKeepends]
            exact List.take_append_drop _ s
          refine ⟨⟨?_, ?_⟩, ?_, ?_⟩
          · rw [hflat, hlen]
            simp [hd]
          · simp [hd, hlen]
          · simp [hd, hlen]
          · rw [hflat]
            simp [hd]
  apply hcore
  · simp only [asyncDeliver]
    split
    · split
      · split <;> rfl
      · rfl
    · rfl
  · simp only [asyncDeliver]
    split
    · split
      · split <;> rfl
      · rfl
    · rfl

/-- When the scripted stdout snapshots only ever grow (each is a prefix of
the next), a completed async polling run has delivered to the stdout callback
exactly the final stdout, byte for byte, nothing twice. -/
theorem asyncRunLoop_no_redelivery (opts : StreamOpts) (hopt : opts.onStdout = true) :
    ∀ (script : List CmdData) (st : AsyncState) (v : List Char)
      (res : CommandResult) (stF : AsyncState),
      AsyncInv st v →
      List.Chain (fun a b => a <+: b) v (script.map (fun d => d.stdout.getD [])) →
      asyncRunLoop opts st script = some (.ok (res, stF)) →
      stF.stdoutCalls.flatten = res.stdout := by
  intro script
  induction script with
  | nil =>
    intro st v res stF _ _ h
    cases h
  | cons d rest ih =>
    intro st v res stF hinv hchain hrun
    rw [List.map_cons] at hchain
    cases hchain with
    | cons hpre hchain2 =>
      obtain ⟨hinv2, hlen2, hflat2⟩ := asyncDeliver_inv opts hopt st d hinv hpre
      simp only [asyncRunLoop] at hrun
      split at hrun
      · simp at hrun
      · rename_i cs hcs
        by_cases hterm : cs = CommandStatus.done ∨ cs = CommandStatus.failed ∨ cs = CommandStatus.error
        · rw [if_pos hterm] at hrun
          simp only [Option.some_inj, Except.ok.injEq, Prod.mk.injEq] at hrun
          obtain ⟨hres, hstF⟩ := hrun
          rw [← hstF, ← hres]
          simpa using hflat2
        · rw [if_neg hterm] at hrun
          exact ih _ _ res stF hinv2 hchain2 hrun

/-- C7: the command engine never re-delivers already-delivered output.
Streaming mode (sync client): across every cut point of the event stream the
accumulated stdout/stderr and the callback logs grow monotonically (so an
abort by `CommandTimeoutError` at any point has only ever appended), and the
concatenation of all callback payloads is a sublist of the accumulated server
output — no byte is passed to a callback twice.  Async polling mode: with
monotonically growing server snapshots, a completed run has handed the
callbacks exactly the final stdout, once. -/
theorem command_engine_no_redelivery :
    (∀ (cmd : List Char) (opts : StreamOpts) (events : List StreamEvent) (n : Nat),
      ((runStreamEvents cmd opts initStreamState (events.take n)).2.stdout <+:
        (runStreamEvents cmd opts initStreamState events).2.stdout) ∧
      ((runStreamEvents cmd opts initStreamState (events.take n)).2.stdoutCalls <+:
        (runStreamEvents cmd opts initStreamState events).2.stdoutCalls) ∧
      ((runStreamEvents cmd opts initStreamState (events.take n)).2.stderr <+:
        (runStreamEvents cmd opts initStreamState events).2.stderr) ∧
      ((runStreamEvents cmd opts initStreamState (events.take n)).2.stderrCalls <+:
        (runStreamEvents cmd opts initStreamState events).2.stderrCalls)) ∧
    (∀ (cmd : List Char) (opts : StreamOpts) (events : List StreamEvent),
      (((runStreamEvents cmd opts initStreamState events).2.stdoutCalls.flatten).Sublist
        ((runStreamEvents cmd opts initStreamState events).2.stdout)) ∧
      (((runStreamEvents cmd opts initStreamState events).2.stderrCalls.flatten).Sublist
        ((runStreamEvents cmd opts initStreamState events).2.stderr))) ∧
    (∀ (opts : StreamOpts) (script : List CmdData) (res : CommandResult) (stF : AsyncState),
      opts.onStdout = true →
      List.Chain (fun a b => a <+: b) [] (script.map (fun d => d.stdout.getD [])) →
      asyncRunLoop opts initAsyncState script = some (.ok (res, stF)) →
      stF.stdoutCalls.flatten = res.stdout) := by
  refine ⟨?_, ?_, ?_⟩
  · intro cmd opts events n
    have hsplit : events = events.take n ++ events.drop n := (List.take_append_drop n events).symm
    have hext := runStreamEvents_take_extends cmd opts (events.take n) (events.drop n)
      initStreamState
    rw [← hsplit] at hext
    obtain ⟨a, b, c, d2, ha, hb, _, hc, hd, _⟩ := hext
    exact ⟨⟨a, ha.symm⟩, ⟨b, hb.symm⟩, ⟨c, hc.symm⟩, ⟨d2, hd.symm⟩⟩
  · intro cmd opts events
    have hext := runStreamEvents_extends cmd opts events initStreamState
    obtain ⟨a, b, c, d2, ha, hb, hab, hc, hd, hcd⟩ := hext
    constructor
    · rw [ha, hb]
      simpa [initStreamState] using hab
    · rw [hc, hd]
      simpa [initStreamState] using hcd
  · intro opts script res stF hopt hchain hrun
    exact asyncRunLoop_no_redelivery opts hopt script initAsyncState [] res stF
      (by constructor <;> simp [initAsyncState]) hchain hrun

/-- Witness for C7: the async conjunct applied to a concrete two-fetch script
with growing snapshots `"he"`, `"hello\n"`; the callbacks received `"he"`
then `"llo\n"`, concatenating to exactly the final stdout. -/
theorem command_engine_no_redelivery_witness :
    (⟨true, true⟩ : StreamOpts).onStdout = true ∧
      List.Chain (fun a b => a <+: b) []
        ([⟨"c1".toList, none, "running".toList, some ("he".toList), none⟩,
          ⟨"c1".toList, some ("e".toList), "done".toList, some ("hello\n".toList), none⟩].map
          (fun d : CmdData => d.stdout.getD [])) ∧
      asyncRunLoop ⟨true, true⟩ initAsyncState
          [⟨"c1".toList, none, "running".toList, some ("he".toList), none⟩,
            ⟨"c1".toList, some ("e".toList), "done".toList, some ("hello\n".toList), none⟩] =
        some (.ok ({ id := "c1".toList, command := "e".toList, status := CommandStatus.done,
                      stdout := "hello\n".toList, stderr := [], exitCode := 0 },
          ⟨6, 0, ["he".toList, "llo\n".toList], []⟩)) ∧
      (⟨6, 0, ["he".toList, "llo\n".toList], []⟩ : AsyncState).stdoutCalls.flatten =
        ({ id := "c1".toList, command := "e".toList, status := CommandStatus.done,
           stdout := "hello\n".toList, stderr := [], exitCode := 0 } : CommandResult).stdout :=
  ⟨rfl, List.Chain.cons ⟨"he".toList, rfl⟩ (List.Chain.cons ⟨"llo\n".toList, rfl⟩ List.Chain.nil),
    by decide,
    command_engine_no_redelivery.2.2 ⟨true, true⟩
      [⟨"c1".toList, none, "running".toList, some ("he".toList), none⟩,
        ⟨"c1".toList, some ("e".toList), "done".toList, some ("hello\n".toList), none⟩]
      { id := "c1".toList, command := "e".toList, status := CommandStatus.done,
        stdout := "hello\n".toList, stderr := [], exitCode := 0 }
      ⟨6, 0, ["he".toList, "llo\n".toList], []⟩ rfl
      (List.Chain.cons ⟨"he".toList, rfl⟩ (List.Chain.cons ⟨"llo\n".toList, rfl⟩ List.Chain.nil))
      (by decide)⟩

/-- C3 counterexample: with the scripted status sequence `queued,
provisioning, booting, running, running, ...` the loop succeeds only after 5
fetches (not 4: each iteration refreshes up to three times), and with
`queued, failed, failed, ...` it raises the generic `TavorError` (not a
`BoxStartError`) whose message takes status and details from the 4th
fetch. -/
theorem wait_until_ready_poll_count_counterexample :
    waitUntilReadyLoop
        (fun n => if n = 0 then ⟨"queued".toList, none⟩
          else if n = 1 then ⟨"provisioning".toList, none⟩
          else if n = 2 then ⟨"booting".toList, none⟩
          else ⟨"running".toList, none⟩) none 10 0 0 = some (.ok (5, 1)) ∧
    waitUntilReadyLoop
        (fun n => if n = 0 then ⟨"queued".toList, none⟩
          else ⟨"failed".toList, some ("disk quota".toList)⟩) none 10 0 0 =
      some (.error (.tavorError ("Box failed to start: failed - disk quota".toList))) := by
  constructor
  · decide
  · decide

/-- C3 (amended): one loop iteration of `wait_until_ready` issues two fetches
when the second fetch reports `running` (returning with fetch counter `n+2`),
three plus a fourth message-building fetch when the third fetch reports a
terminal status (raising a generic `TavorError` whose message carries the
fourth fetch's status and truthy details), and three fetches plus one sleep
otherwise. -/
theorem wait_until_ready_iteration (f : Nat → BoxR) (t : Option Nat)
    (fuel n sleeps : Nat) :
    ((f (n + 1)).status = "running".toList →
      waitUntilReadyLoop f t (fuel + 1) n sleeps = some (.ok (n + 2, sleeps))) ∧
    ((f (n + 1)).status ≠ "running".toList →
      (f (n + 2)).status ∈ boxTerminalStatuses →
      waitUntilReadyLoop f t (fuel + 1) n sleeps =
        some (.error (.tavorError (startFailMsg (f (n + 3)))))) ∧
    ((f (n + 1)).status ≠ "running".toList →
      (f (n + 2)).status ∉ boxTerminalStatuses →
      timeoutExceeded t sleeps = false →
      waitUntilReadyLoop f t (fuel + 1) n sleeps =
        waitUntilReadyLoop f t fuel (n + 3) (sleeps + 1)) := by
  refine ⟨?_, ?_, ?_⟩
  · intro h
    simp only [waitUntilReadyLoop, if_pos h]
  · intro h1 h2
    simp only [waitUntilReadyLoop, if_neg h1, if_pos h2]
  · intro h1 h2 h3
    simp only [waitUntilReadyLoop, if_neg h1, if_neg h2, h3]
    rfl

/-- Witness for the amended C3: the three iteration shapes at the concrete
scripts of the claim. -/
theorem wait_until_ready_iteration_witness :
    ((fun n : Nat => if n = 0 then (⟨"queued".toList, none⟩ : BoxR)
        else if n = 1 then ⟨"provisioning".toList, none⟩
        else if n = 2 then ⟨"booting".toList, none⟩
        else ⟨"running".toList, none⟩) (3 + 1)).status = "running".toList ∧
      waitUntilReadyLoop
        (fun n : Nat => if n = 0 then (⟨"queued".toList, none⟩ : BoxR)
          else if n = 1 then ⟨"provisioning".toList, none⟩
          else if n = 2 then ⟨"booting".toList, none⟩
          else ⟨"running".toList, none⟩) none (9 + 1) 3 1 = some (.ok (3 + 2, 1)) :=
  ⟨by decide,
    (wait_until_ready_iteration
      (fun n : Nat => if n = 0 then (⟨"queued".toList, none⟩ : BoxR)
        else if n = 1 then ⟨"provisioning".toList, none⟩
        else if n = 2 then ⟨"booting".toList, none⟩
        else ⟨"running".toList, none⟩) none 9 3 1).1 (by decide)⟩

/-- C4: polling-mode `run` returns at the first fetched terminal status,
having slept exactly once per preceding non-terminal fetch and never after
the terminal one (the script tail past the terminal fetch is never
consulted), with `exit_code = 0` exactly when the status is `done` and 1
otherwise, and the result carrying that fetch's stdout/stderr.  No callback
exists in this mode: the mode is selected by `on_stdout`/`on_stderr` being
`None`, and the loop body contains no callback call site. -/
theorem poll_run_first_terminal (pre : List CmdData) (d : CmdData) (post : List CmdData)
    (cs : CommandStatus)
    (hpre : ∀ q ∈ pre, ∃ c, commandStatusOfString q.status = some c ∧ ¬isTerminalCmd c)
    (hd : commandStatusOfString d.status = some cs) (hterm : isTerminalCmd cs) :
    ∀ sleeps, pollRunLoop (pre ++ d :: post) sleeps =
      some (.ok ({ id := d.id, command := d.command.getD [], status := cs,
                   stdout := d.stdout.getD [], stderr := d.stderr.getD [],
                   exitCode := if cs = CommandStatus.done then 0 else 1 }, sleeps + pre.length)) := by
  induction pre with
  | nil =>
    intro sleeps
    simp only [List.nil_append, pollRunLoop, hd, if_pos hterm]
    have hec : (if cs = CommandStatus.failed ∧ (d.stderr.getD []) ≠ [] then (1 : Int)
        else if cs = CommandStatus.done then 0 else 1) =
        (if cs = CommandStatus.done then 0 else 1) := by
      by_cases hf : cs = CommandStatus.failed ∧ (d.stderr.getD []) ≠ []
      · rw [if_pos hf, if_neg (by rw [hf.1]; intro hx; cases hx)]
      · rw [if_neg hf]
    simp only [hec, List.length_nil, Nat.add_zero]
  | cons q pre ih =>
    intro sleeps
    obtain ⟨c, hc, hcnt⟩ := hpre q (by simp)
    simp only [List.cons_append, pollRunLoop, hc, if_neg hcnt, List.append_eq]
    rw [ih (fun r hr => hpre r (by simp [hr])) (sleeps + 1)]
    simp only [List.length_cons]
    rw [Nat.add_assoc, Nat.add_comm 1 pre.length]

/-- Witness for C4 at the claim's script: one `running` fetch then `done`
with stdout `"hello\n"`; the result has `exit_code = 0`, stdout `"hello\n"`,
and exactly one sleep (before the terminal fetch, none after). -/
theorem poll_run_first_terminal_witness :
    (∀ q ∈ [(⟨"c9".toList, none, "running".toList, none, none⟩ : CmdData)],
      ∃ c, commandStatusOfString q.status = some c ∧ ¬isTerminalCmd c) ∧
      commandStatusOfString ("done".toList) = some CommandStatus.done ∧
      isTerminalCmd CommandStatus.done ∧
      pollRunLoop
          [⟨"c9".toList, none, "running".toList, none, none⟩,
            ⟨"c9".toList, some ("echo hello".toList), "done".toList,
              some ("hello\n".toList), none⟩] 0 =
        some (.ok ({ id := "c9".toList, command := "echo hello".toList,
                     status := CommandStatus.done, stdout := "hello\n".toList,
                     stderr := [], exitCode := 0 }, 0 + 1)) :=
  ⟨fun q hq => ⟨CommandStatus.running, by
      simp only [List.mem_singleton] at hq
      rw [hq]
      exact ⟨by decide, by decide⟩⟩,
    by decide, by decide, by
    have := poll_run_first_terminal
      [⟨"c9".toList, none, "running".toList, none, none⟩]
      ⟨"c9".toList, some ("echo hello".toList), "done".toList, some ("hello\n".toList), none⟩
      [] CommandStatus.done
      (fun q hq => ⟨CommandStatus.running, by
        simp only [List.mem_singleton] at hq
        rw [hq]
        exact ⟨by decide, by decide⟩⟩)
      (by decide) (by decide) 0
    simpa using this⟩

/-- C6 counterexample: after `stop()` (handle closed, one delete logged),
`expose_port` neither raises a `ClosedHandleError` nor is a no-op — it issues
its request and returns successfully — and the operation that does fail,
`refresh`, raises the generic `TavorError`, not a `ClosedHandleError`. -/
theorem closed_handle_ops_counterexample :
    stopOp ("b1".toList) ⟨false⟩ [] = (⟨true⟩, [.deleteBox ("b1".toList)]) ∧
    exposePortOp ("b1".toList) 80 ⟨true⟩ [.deleteBox ("b1".toList)] =
      (.ok (), [.deleteBox ("b1".toList), .exposePortReq ("b1".toList) 80]) ∧
    refreshOp ("b1".toList) ⟨true⟩ [.deleteBox ("b1".toList)] =
      (.error (.tavorError ("Box handle is closed".toList)), [.deleteBox ("b1".toList)]) := by
  refine ⟨by decide, by decide, by decide⟩

/-- C6 (amended): `stop()` is idempotent — the first call on an open handle
issues exactly one delete and closes the handle, and any further `stop()` is
a no-op issuing nothing; operations that refresh state (`refresh`, and
through it `status`, `run`, `get_public_url`) raise the generic
`TavorError("Box handle is closed")` on a closed handle without issuing a
request; but `pause`/`resume` first issue their `POST` and only then fail in
their trailing refresh, and `expose_port` issues its request and raises
nothing locally. -/
theorem stop_idempotent_closed_ops (boxId : List Char) (port : Nat) :
    (∀ log, stopOp boxId ⟨false⟩ log = (⟨true⟩, log ++ [.deleteBox boxId])) ∧
    (∀ log, stopOp boxId ⟨true⟩ log = (⟨true⟩, log)) ∧
    (∀ h log, stopOp boxId (stopOp boxId h log).1 (stopOp boxId h log).2 = stopOp boxId h log) ∧
    (∀ log, refreshOp boxId ⟨true⟩ log =
      (.error (.tavorError ("Box handle is closed".toList)), log)) ∧
    (∀ log, pauseOp boxId ⟨true⟩ log =
      (.error (.tavorError ("Box handle is closed".toList)), log ++ [.pauseBox boxId])) ∧
    (∀ log, exposePortOp boxId port ⟨true⟩ log =
      (.ok (), log ++ [.exposePortReq boxId port])) := by
  refine ⟨fun log => rfl, fun log => rfl, ?_, fun log => rfl, fun log => rfl, fun log => rfl⟩
  intro h log
  by_cases hc : h.closed = true
  · have : h = ⟨true⟩ := by cases h; simp_all
    subst this
    rfl
  · have : h = ⟨false⟩ := by cases h; simp_all
    subst this
    rfl

/-- Through a body run, delete-count plus a pending-delete marker for an
open handle is conserved: the body can move the pending delete into the log
by stopping, never add a second one. -/
theorem runBody_invariant (boxId : List Char) : ∀ (body : List BodyStep)
    (h : HandleState) (log : List ReqKind) (stops : Nat),
    deleteCount boxId (runBody boxId body h log stops).2.2.1 +
        (if (runBody boxId body h log stops).2.1.closed then 0 else 1) =
      deleteCount boxId log + (if h.closed then 0 else 1) := by
  intro body
  induction body with
  | nil => intro h log stops; rfl
  | cons step rest ih =>
    intro h log stops
    match step with
    | .doWork => exact ih h log stops
    | .oops => rfl
    | .callStop =>
      by_cases hc : h.closed = true
      · have hh : h = ⟨true⟩ := by cases h; simp_all
        subst hh
        simpa [runBody, stopOp] using ih ⟨true⟩ log (stops + 1)
      · have hh : h = ⟨false⟩ := by cases h; simp_all
        subst hh
        have := ih ⟨true⟩ (log ++ [.deleteBox boxId]) (stops + 1)
        simp only [runBody, stopOp] at this ⊢
        simp only [if_neg (by decide : ¬(false = true)), if_pos rfl] at this ⊢
        rw [this]
        simp [deleteCount]

/-- C5: for every body — including bodies that raise, and bodies that call
`stop()` themselves — once the box was created, the scoped context manager
invokes `stop()` on the handle on the way out: the `stop()` invocation count
is at least one, the handle ends closed, and exactly one `DELETE` for the box
is ever issued. -/
theorem box_scope_always_stops (boxId : List Char) (body : List BodyStep) :
    (tavorBoxScope boxId body).2.2.2 ≥ 1 ∧
    (tavorBoxScope boxId body).2.1.closed = true ∧
    deleteCount boxId (tavorBoxScope boxId body).2.2.1 = 1 ∧
    ReqKind.deleteBox boxId ∈ (tavorBoxScope boxId body).2.2.1 := by
  have hinv := runBody_invariant boxId body ⟨false⟩ [ReqKind.createBox] 0
  simp only [if_neg (by decide : ¬(false = true))] at hinv
  have hcreate : deleteCount boxId [ReqKind.createBox] = 0 := by
    simp [deleteCount, List.countP_cons]
  rw [hcreate] at hinv
  have hcount : deleteCount boxId (tavorBoxScope boxId body).2.2.1 = 1 := by
    simp only [tavorBoxScope, stopOp]
    by_cases hc : (runBody boxId body ⟨false⟩ [ReqKind.createBox] 0).2.1.closed = true
    · rw [if_pos hc]
      rw [if_pos hc] at hinv
      simpa using hinv
    · rw [if_neg hc]
      rw [if_neg hc] at hinv
      simp only [Prod.snd, deleteCount, List.countP_append] at hinv ⊢
      have h1 : List.countP (fun r => decide (r = ReqKind.deleteBox boxId))
          [ReqKind.deleteBox boxId] = 1 := by
        simp [List.countP_cons]
      omega
  refine ⟨?_, ?_, hcount, ?_⟩
  · simp only [tavorBoxScope]
    omega
  · simp only [tavorBoxScope, stopOp]
    by_cases hc : (runBody boxId body ⟨false⟩ [ReqKind.createBox] 0).2.1.closed = true
    · rw [if_pos hc]
      exact hc
    · rw [if_neg hc]
  · have hpos : 0 < List.countP (fun r => decide (r = ReqKind.deleteBox boxId))
        (tavorBoxScope boxId body).2.2.1 := by
      have := hcount
      simp only [deleteCount] at this
      omega
    obtain ⟨a, ha, hpa⟩ := List.countP_pos_iff.mp hpos
    have : a = ReqKind.deleteBox boxId := by simpa using hpa
    rwa [this] at ha

/-- C9: with a hostname set, `get_public_url(port)` returns exactly
`"https://{port}-{hostname}"`; with the hostname absent (or empty, which is
equally falsy) it raises a `ValueError` about the missing hostname instead of
returning a value. -/
theorem get_public_url_spec (host : List Char) (port : Nat) (hh : host ≠ []) :
    boxGetPublicUrl (some host) port =
      .ok ("https://".toList ++ (Nat.repr port).toList ++ ('-' :: host)) ∧
    boxGetPublicUrl none port =
      .error (.valueError
        ("Box does not have a hostname. Ensure the box is created and running.".toList)) ∧
    boxGetPublicUrl (some []) port =
      .error (.valueError
        ("Box does not have a hostname. Ensure the box is created and running.".toList)) := by
  refine ⟨?_, rfl, rfl⟩
  simp only [boxGetPublicUrl, if_pos hh]

/-- Witness for C9 at the claim's input: port 8080, hostname
`"abc.example"`. -/
theorem get_public_url_spec_witness :
    ("abc.example".toList ≠ ([] : List Char)) ∧
      boxGetPublicUrl (some ("abc.example".toList)) 8080 =
        .ok ("https://8080-abc.example".toList) :=
  ⟨by decide, by
    have := (get_public_url_spec ("abc.example".toList) 8080 (by decide)).1
    rw [this]
    decide⟩

/-- `pyInt` never accepts the empty string. -/
theorem pyInt_nil : pyInt [] = none := rfl

/-- C10: a resulting timeout of 600 — the default, or an explicitly supplied
600, indistinguishably — is replaced by a parseable `TAVOR_BOX_TIMEOUT`
value; any other explicit timeout, and any explicit cpu or mib_ram, is never
overridden by the environment; an unparseable (or empty, or unset)
environment timeout leaves the 600 in place. -/
theorem box_config_post_init_spec (env : EnvVars) :
    (∀ (cpu ram : Option Int) (s : List Char) (n : Int), env.boxTimeout = some s →
      pyInt s = some n →
      (boxConfigPostInit ⟨cpu, ram, some 600⟩ env).timeout = some n) ∧
    (∀ (cpu ram : Option Int) (t : Option Int), t ≠ some 600 →
      (boxConfigPostInit ⟨cpu, ram, t⟩ env).timeout = t) ∧
    (∀ (c : Int) (ram t : Option Int), (boxConfigPostInit ⟨some c, ram, t⟩ env).cpu = some c) ∧
    (∀ (cpu : Option Int) (r : Int) (t : Option Int),
      (boxConfigPostInit ⟨cpu, some r, t⟩ env).mib_ram = some r) ∧
    (∀ (cpu ram : Option Int) (s : List Char), env.boxTimeout = some s → pyInt s = none →
      (boxConfigPostInit ⟨cpu, ram, some 600⟩ env).timeout = some 600) ∧
    (∀ (cpu ram : Option Int), env.boxTimeout = none →
      (boxConfigPostInit ⟨cpu, ram, some 600⟩ env).timeout = some 600) := by
  refine ⟨?_, ?_, ?_, ?_, ?_, ?_⟩
  · intro cpu ram s n hs hn
    have hne : s ≠ [] := by
      intro hx
      rw [hx, pyInt_nil] at hn
      cases hn
    simp only [boxConfigPostInit, hs, if_pos rfl, if_pos hne, hn]
    simp
  · intro cpu ram t ht
    simp only [boxConfigPostInit, if_neg ht]
  · intro c ram t
    simp only [boxConfigPostInit]
  · intro cpu r t
    simp only [boxConfigPostInit]
  · intro cpu ram s hs hn
    by_cases hne : s = []
    · subst hne
      simp only [boxConfigPostInit, hs, if_pos rfl]
      simp
    · simp only [boxConfigPostInit, hs, if_pos rfl, if_pos (by exact hne : s ≠ []), hn]
      simp
  · intro cpu ram hs
    simp only [boxConfigPostInit, hs, if_pos rfl]
    simp

/-- Witness for C10: `TAVOR_BOX_TIMEOUT=" 1_200 "` (whitespace and an inner
underscore, both accepted by `int`) replaces an explicit 600 but not an
explicit 900; explicit cpu and ram survive; an unparseable value is
ignored. -/
theorem box_config_post_init_spec_witness :
    (⟨none, none, some (" 1_200 ".toList)⟩ : EnvVars).boxTimeout = some (" 1_200 ".toList) ∧
      pyInt (" 1_200 ".toList) = some 1200 ∧
      (boxConfigPostInit ⟨none, none, some 600⟩ ⟨none, none, some (" 1_200 ".toList)⟩).timeout =
        some 1200 ∧
      (boxConfigPostInit ⟨some 2, some 4096, some 900⟩
          ⟨some ("8".toList), some ("1".toList), some (" 1_200 ".toList)⟩) =
        ⟨some 2, some 4096, some 900⟩ ∧
      (boxConfigPostInit ⟨none, none, some 600⟩ ⟨none, none, some ("12s".toList)⟩).timeout =
        some 600 :=
  ⟨rfl, by decide,
    (box_config_post_init_spec ⟨none, none, some (" 1_200 ".toList)⟩).1 none none
      (" 1_200 ".toList) 1200 rfl (by decide),
    by decide, by decide⟩

end TavorSdk
